import Mathlib

/-!
Verification of the lecture-pipeline core of the Hirin/discord-bot repository:
a shallow embedding of `src/services/lecture_cache.py`, `src/services/video.py`,
`src/services/llm.py` and the orchestration skeleton of
`src/cogs/lecture/video_views.py`, together with proofs settling the frozen
claims about the natural-language specification.

Modelling conventions:
- Wall-clock time (`time.time()`) is an explicit `Nat` argument `now`.
- The cache directory is a finite association list from file id (the
  `{cache_id}.json` name) to file content; a file is either a decodable JSON
  cache record (`CacheFile.valid`) or unreadable/invalid JSON
  (`CacheFile.corrupt`, on which `json.load` raises).
- JSON dictionaries are association lists with Python `dict` semantics:
  a later binding for the same key overrides an earlier one (`dget`), and
  `d[k] = v` replaces in place or appends (`dset`).
- Python float arithmetic on durations/sizes is modelled by exact rational
  arithmetic over `ℚ`.
- Fallible operations (Python code that can raise) return `Option`.
-/

/-- JSON-ish scalar values stored in cache records. -/
inductive JVal
  | jstr (s : String)
  | jnat (n : Nat)
  | jbool (b : Bool)
  deriving DecidableEq

/-- A Python `dict` with string keys, as an association list in insertion order. -/
abbrev Dict := List (String × JVal)

/-- Python dict lookup: the *last* binding of a key wins (later writes override). -/
def dget {α : Type} : List (String × α) → String → Option α
  | [], _ => none
  | (k₀, v₀) :: rest, k =>
    match dget rest k with
    | some v => some v
    | none => if k₀ = k then some v₀ else none

/-- Python dict assignment `d[k] = v`: replace the binding in place if the key
exists, otherwise append a new binding at the end. -/
def dset {α : Type} (d : List (String × α)) (k : String) (v : α) : List (String × α) :=
  if d.any (fun p => p.1 = k) then
    d.map (fun p => if p.1 = k then (k, v) else p)
  else
    d ++ [(k, v)]

/-- Python `del d[k]` (and file unlink when used on the cache directory). -/
def dremove {α : Type} (d : List (String × α)) (k : String) : List (String × α) :=
  d.filter (fun p => p.1 ≠ k)

/-- Python `str.startswith`, evaluated on the underlying character lists (so
that concrete instances reduce in the kernel). -/
def startsWithStr (s pre : String) : Bool :=
  pre.toList.isPrefixOf s.toList

/-- Python dict-literal construction `{base..., **data}`: fold assignment of
`data`'s bindings over the base dict, so `data` overrides base keys. -/
def dextend {α : Type} (base : List (String × α)) (data : List (String × α)) :
    List (String × α) :=
  data.foldl (fun d p => dset d p.1 p.2) base

namespace LectureCache

/-- `CACHE_EXPIRY_SECONDS = 7200` from `services/lecture_cache.py`. -/
def CACHE_EXPIRY_SECONDS : Nat := 7200

/-- One entry of the per-part summary map written by `save_part_summary`. -/
structure PartRec where
  summary : String
  start_seconds : ℚ
  processed_at : Nat
  deriving DecidableEq

/-- The JSON record stored in one `{cache_id}.json` file: `cache_id`,
`created_at`, optional `updated_at` (absent until the first stage write),
`config`, `stages` (name → stage record dict) and `parts`
(stringified part number → part record). -/
structure JobCache where
  cache_id : String
  created_at : Nat
  updated_at : Option Nat
  config : Dict
  stages : List (String × Dict)
  parts : List (String × PartRec)
  deriving DecidableEq

/-- Content of one file in the cache directory: decodable JSON, or a file
`json.load` raises on (unreadable / invalid JSON). -/
inductive CacheFile
  | valid (c : JobCache)
  | corrupt
  deriving DecidableEq

/-- The cache directory `data/lecture_cache`: file id → file content, in
directory-listing order. -/
abbrev FS := List (String × CacheFile)

/-- `any(s.startswith("transcript") for s in stages.keys())`. -/
def hasTranscriptStage (c : JobCache) : Bool :=
  c.stages.any (fun p => startsWithStr p.1 "transcript")

/-- `get_pipeline_cache(cache_id, ignore_expiry_for_transcript=True)`:
load the full pipeline cache, `none` if expired or not found.  A cache holding
any `transcript*` stage is exempt from expiry when the flag is set; otherwise
the file is deleted (unlinked) and `none` returned once
`time.time() - created_at > CACHE_EXPIRY_SECONDS`.  A file that fails to load
is caught and reported as `none`, leaving the file in place.  Returns the
result together with the (possibly changed) cache directory. -/
def get_pipeline_cache (now : Nat) (fs : FS) (cache_id : String)
    (ignore_expiry_for_transcript : Bool := true) : Option JobCache × FS :=
  match dget fs cache_id with
  | none => (none, fs)
  | some .corrupt => (none, fs)
  | some (.valid c) =>
    if hasTranscriptStage c && ignore_expiry_for_transcript then
      (some c, fs)
    else if CACHE_EXPIRY_SECONDS < now - c.created_at then
      (none, dremove fs cache_id)
    else
      (some c, fs)

/-- The stage record written by `save_stage`:
`{"status": "completed", "saved_at": time.time(), **data}`. -/
def mkStageRecord (now : Nat) (data : Dict) : Dict :=
  dextend [("status", .jstr "completed"), ("saved_at", .jnat now)] data

/-- `save_stage(cache_id, stage_name, data, config=None)`: load the existing
file (raising, i.e. `none`, if it exists but is undecodable) or create a fresh
record with `created_at = time.time()`, then set `updated_at` and write the
stage record under `stage_name`. -/
def save_stage (now : Nat) (fs : FS) (cache_id stage_name : String)
    (data : Dict) (config : Option Dict) : Option FS :=
  match dget fs cache_id with
  | some .corrupt => none
  | some (.valid c) =>
    some (dset fs cache_id (.valid
      { c with updated_at := some now,
               stages := dset c.stages stage_name (mkStageRecord now data) }))
  | none =>
    let c : JobCache :=
      { cache_id := cache_id, created_at := now, updated_at := some now,
        config := config.getD [], stages := [(stage_name, mkStageRecord now data)],
        parts := [] }
    some (dset fs cache_id (.valid c))

/-- `get_stage(cache_id, stage_name)`: a specific stage's cached data via
`get_pipeline_cache` (with the transcript exemption enabled by default). -/
def get_stage (now : Nat) (fs : FS) (cache_id stage_name : String) :
    Option Dict × FS :=
  match get_pipeline_cache now fs cache_id with
  | (none, fs') => (none, fs')
  | (some c, fs') => (dget c.stages stage_name, fs')

/-- `clear_stage(cache_id, stage_name)`: remove one stage from the cache file
if present; no-op when the file does not exist; raises (`none`) on an
undecodable file. -/
def clear_stage (now : Nat) (fs : FS) (cache_id stage_name : String) :
    Option FS :=
  match dget fs cache_id with
  | none => some fs
  | some .corrupt => none
  | some (.valid c) =>
    if (dget c.stages stage_name).isSome then
      some (dset fs cache_id (.valid
        { c with updated_at := some now,
                 stages := dremove c.stages stage_name }))
    else
      some fs

/-- `save_part_summary(cache_id, part_num, summary, start_seconds)`: write one
per-part summary record under the stringified part number.  The fresh-file
branch creates a record without a `config` entry (modelled as an empty
config). -/
def save_part_summary (now : Nat) (fs : FS) (cache_id : String)
    (part_num : Nat) (summary : String) (start_seconds : ℚ) : Option FS :=
  let rec_ : PartRec :=
    { summary := summary, start_seconds := start_seconds, processed_at := now }
  match dget fs cache_id with
  | some .corrupt => none
  | some (.valid c) =>
    some (dset fs cache_id (.valid
      { c with updated_at := some now,
               parts := dset c.parts (toString part_num) rec_ }))
  | none =>
    let c : JobCache :=
      { cache_id := cache_id, created_at := now, updated_at := some now,
        config := [], stages := [],
        parts := [(toString part_num, rec_)] }
    some (dset fs cache_id (.valid c))

/-- `get_cached_parts(cache_id)`: part number → part record, from
`get_pipeline_cache`; `{}` when the cache is absent, expired or unreadable.
The `int(k)` key conversion is modelled on the numeric keys the code writes. -/
def get_cached_parts (now : Nat) (fs : FS) (cache_id : String) :
    List (Nat × PartRec) × FS :=
  match get_pipeline_cache now fs cache_id with
  | (none, fs') => ([], fs')
  | (some c, fs') =>
    (c.parts.filterMap (fun p => (p.1.toNat?).map (fun n => (n, p.2))), fs')

/-- `clear_pipeline_cache(cache_id)`: unlink the whole cache file. -/
def clear_pipeline_cache (fs : FS) (cache_id : String) : FS :=
  dremove fs cache_id

/-- Does the check `now - created_at > CACHE_EXPIRY_SECONDS` of
`cleanup_expired_caches` delete this file?  Files that fail to decode raise
inside the loop, are caught, and are left alone. -/
def sweepExpired (now : Nat) : CacheFile → Bool
  | .valid c => decide (CACHE_EXPIRY_SECONDS < now - c.created_at)
  | .corrupt => false

/-- `cleanup_expired_caches()`: iterate over every cache file, delete the ones
whose `created_at` TTL has lapsed, and return the directory together with the
number deleted. -/
def cleanup_expired_caches (now : Nat) (fs : FS) : FS × Nat :=
  fs.foldl
    (fun acc entry =>
      if sweepExpired now entry.2 then (acc.1, acc.2 + 1)
      else (acc.1 ++ [entry], acc.2))
    ([], 0)

/-- `created_at` of the cache file for `cache_id` (0 when absent/corrupt),
used to phrase TTL hypotheses. -/
def createdOf (fs : FS) (cache_id : String) : Nat :=
  match dget fs cache_id with
  | some (.valid c) => c.created_at
  | _ => 0

/-- The stage record for `cache_id`/`stage_name` as stored on disk (without
going through expiry), used to state preservation properties. -/
def stageOf (fs : FS) (cache_id stage_name : String) : Option Dict :=
  match dget fs cache_id with
  | some (.valid c) => dget c.stages stage_name
  | _ => none

/-- The parts map for `cache_id` as stored on disk. -/
def partsOf (fs : FS) (cache_id : String) : List (String × PartRec) :=
  match dget fs cache_id with
  | some (.valid c) => c.parts
  | _ => []

end LectureCache

namespace Video

/-- `MAX_PART_SIZE_MB = 380` from `services/video.py`. -/
def MAX_PART_SIZE_MB : ℚ := 380

/-- `calculate_num_parts(size_bytes)`: 1 part up to 380 MB, 2 up to 760 MB,
3 otherwise (hard cap).  `size_bytes / (1024 * 1024)` is exact rational
division, modelling Python float division. -/
def calculate_num_parts (size_bytes : Nat) : Nat :=
  let size_mb : ℚ := (size_bytes : ℚ) / (1024 * 1024)
  if size_mb ≤ MAX_PART_SIZE_MB then 1
  else if size_mb ≤ MAX_PART_SIZE_MB * 2 then 2
  else 3

/-- One window of the segment plan: the `start_seconds`/`duration` fields of
the dicts returned by `split_video` (the output file path, an I/O artifact,
is not modelled). -/
structure Window where
  start_seconds : ℚ
  duration : ℚ
  deriving DecidableEq

/-- The segment plan computed by `split_video(input_path, num_parts)`:
one whole-asset window when `num_parts <= 1`, otherwise `num_parts` windows of
equal duration `duration / num_parts` starting at `i * part_duration`. -/
def split_video_plan (duration : ℚ) (num_parts : Nat) : List Window :=
  if num_parts ≤ 1 then
    [{ start_seconds := 0, duration := duration }]
  else
    let part_duration := duration / (num_parts : ℚ)
    (List.range num_parts).map
      (fun i => { start_seconds := (i : ℚ) * part_duration, duration := part_duration })

/-- Windows are contiguous starting from `s`: each window starts exactly where
the previous one ends. -/
def chainFrom : ℚ → List Window → Prop
  | _, [] => True
  | s, w :: ws => w.start_seconds = s ∧ chainFrom (s + w.duration) ws

/-- Total duration covered by a plan. -/
def sumDur (ws : List Window) : ℚ :=
  (ws.map (fun w => w.duration)).sum

end Video

namespace Fingerprint

/-- Character class `[a-zA-Z0-9_-]` of the Drive-id capture groups. -/
def isIdChar (c : Char) : Bool :=
  c.isAlpha || c.isDigit || c = '_' || c = '-'

/-- The maximal `[a-zA-Z0-9_-]+` run at the front of the character list. -/
def takeIdRun (cs : List Char) : List Char :=
  cs.takeWhile isIdChar

/-- `re.search` of a literal pattern followed by a capture group
`([a-zA-Z0-9_-]+)`: scan left to right for an occurrence of the literal that
is followed by at least one id character and return that maximal run. -/
def matchAfterLit (lit : List Char) : List Char → Option (List Char)
  | [] => none
  | c :: rest =>
    if lit.isPrefixOf (c :: rest) ∧ takeIdRun ((c :: rest).drop lit.length) ≠ [] then
      some (takeIdRun ((c :: rest).drop lit.length))
    else
      matchAfterLit lit rest

/-- The lazy middle of `docs\.google\.com/.*?/d/([a-zA-Z0-9_-]+)`: after a
`docs.google.com/` occurrence, scan forward (never across a newline, which `.`
does not match) for a `/d/` followed by at least one id character. -/
def findDAfter : List Char → Option (List Char)
  | [] => none
  | c :: rest =>
    if c = '\n' then none
    else if ("/d/".toList).isPrefixOf (c :: rest) ∧
            takeIdRun ((c :: rest).drop 3) ≠ [] then
      some (takeIdRun ((c :: rest).drop 3))
    else
      findDAfter rest

/-- Scan for the leftmost `docs.google.com/` occurrence from which the rest of
the third pattern matches. -/
def matchDocsPattern : List Char → Option (List Char)
  | [] => none
  | c :: rest =>
    if ("docs.google.com/".toList).isPrefixOf (c :: rest) then
      match findDAfter ((c :: rest).drop ("docs.google.com/".toList).length) with
      | some run => some run
      | none => matchDocsPattern rest
    else
      matchDocsPattern rest

/-- `extract_drive_id(url)`: try the three regex patterns in order
(`drive.google.com/file/d/…`, `drive.google.com/open?id=…`,
`docs.google.com/…/d/…`); `None` for a falsy url or when nothing matches. -/
def extract_drive_id (url : String) : Option String :=
  if url = "" then none
  else
    match matchAfterLit ("drive.google.com/file/d/".toList) url.toList with
    | some run => some (String.mk run)
    | none =>
      match matchAfterLit ("drive.google.com/open?id=".toList) url.toList with
      | some run => some (String.mk run)
      | none =>
        match matchDocsPattern url.toList with
        | some run => some (String.mk run)
        | none => none

/-- The `/tmp` upload directory visible to `generate_slides_key`:
path → file size, modelling `os.path.exists` / `os.path.getsize`. -/
structure TmpFS where
  files : List (String × Nat)
  deriving DecidableEq

/-- The ambient state the fingerprint helpers could observe: the wall clock
and the upload directory.  The embedded functions read only `tmp`; the `now`
field exists so time-independence is a statable property. -/
structure Env where
  now : Nat
  tmp : TmpFS
  deriving DecidableEq

/-- `os.path.basename`: the last `/`-separated component. -/
def basename (p : String) : String :=
  (p.splitOn "/").getLastD ""

/-- `generate_slides_key(slides_url)`: empty key for no slides, `drive:<id>`
for a Drive link, `file:<name>:<size>` for an existing `/tmp` upload, else the
first 12 hex digits of the url's MD5.  `md5hex` abstracts `hashlib.md5(...)
.hexdigest()`, a fixed pure library function. -/
def generate_slides_key (e : Env) (md5hex : String → String)
    (slides_url : Option String) : String :=
  match slides_url with
  | none => ""
  | some u =>
    if u = "" then ""
    else
      match extract_drive_id u with
      | some driveId => "drive:" ++ driveId
      | none =>
        match (if startsWithStr u "/tmp/" then dget e.tmp.files u else none) with
        | some size => "file:" ++ basename u ++ ":" ++ toString size
        | none => (md5hex u).take 12

/-- `generate_pipeline_id(video_url, slides_url, user_id)`: MD5 (first 16 hex
digits) of `v:<video_id>|s:<slides_key>|u:<user_id>`, where the video id is
the Drive id or a 12-digit url hash fallback. -/
def generate_pipeline_id (e : Env) (md5hex : String → String)
    (video_url : String) (slides_url : Option String) (user_id : Nat) : String :=
  let video_id :=
    match extract_drive_id video_url with
    | some driveId => driveId
    | none => (md5hex video_url).take 12
  let slides_key := generate_slides_key e md5hex slides_url
  let content := "v:" ++ video_id ++ "|s:" ++ slides_key ++ "|u:" ++ toString user_id
  (md5hex content).take 16

end Fingerprint

namespace LLMService

/-- Modelled from the spec: `services/gemini_keys.py` (class `GeminiKeyPool`)
is not part of the provided sources; spec §3 **CredentialEntry** defines its
per-key state `{key_value, usage_count, cooldown_until}`. -/
structure CredentialEntry where
  key_value : String
  usage_count : Nat
  cooldown_until : Nat
  deriving DecidableEq

/-- A credential pool: the user's Gemini keys in pool order. -/
abbrev Pool := List CredentialEntry

/-- Modelled from the spec: `GeminiKeyPool.get_available_key` (missing
`services/gemini_keys.py`), per §4.2 — the first key in pool order whose
cooldown has passed and whose usage count is below the daily cap; `none` when
no key qualifies. -/
def get_available_key (now cap : Nat) (pool : Pool) : Option String :=
  (pool.find? (fun e => decide (e.cooldown_until ≤ now) && decide (e.usage_count < cap))).map
    (fun e => e.key_value)

/-- Modelled from the spec: `GeminiKeyPool.mark_rate_limited` (missing
`services/gemini_keys.py`), per §4.2 — set the key's cooldown to the next
daily reset boundary, keeping the key in the pool. -/
def mark_rate_limited (resetBoundary : Nat) (pool : Pool) (key : String) : Pool :=
  pool.map (fun e =>
    if e.key_value = key then { e with cooldown_until := resetBoundary } else e)

/-- Modelled from the spec: `GeminiKeyPool.increment_count` (missing
`services/gemini_keys.py`), per §4.2 — bump the key's usage count. -/
def increment_count (pool : Pool) (key : String) : Pool :=
  pool.map (fun e =>
    if e.key_value = key then { e with usage_count := e.usage_count + 1 } else e)

/-- Outcome of one `gemini.summarize_transcript` remote call with a given key,
as classified by the handler in `llm.py` (`"429"`/`"rate"`/`"quota"` in the
error string → rate-limited; any other exception → fall through to GLM). -/
inductive CallOutcome
  | success (summary : String)
  | rateLimited
  | otherError
  deriving DecidableEq

/-- Result of the Gemini key-rotation loop, instrumented with the list of
`increment_count` calls and of `mark_rate_limited` calls it performed. -/
structure LoopResult where
  result : Option String
  pool : Pool
  increments : List String
  rateLimitMarks : List String
  deriving DecidableEq

/-- The credential-rotation loop of `summarize_transcript` (`llm.py` lines
265–291): `for attempt in range(len(user_gemini_keys))`, pick the next
available key (break when none); on success call `increment_count` and
return; on a rate-limit error call `mark_rate_limited` and continue with the
next key; on any other error break (falling through to the GLM provider).
The fuel argument is the loop bound `len(user_gemini_keys)`. -/
def summarizeLoop (now cap resetBoundary : Nat) (call : String → CallOutcome) :
    Nat → Pool → LoopResult
  | 0, pool => { result := none, pool := pool, increments := [], rateLimitMarks := [] }
  | fuel + 1, pool =>
    match get_available_key now cap pool with
    | none => { result := none, pool := pool, increments := [], rateLimitMarks := [] }
    | some key =>
      match call key with
      | .success s =>
        { result := some s, pool := increment_count pool key,
          increments := [key], rateLimitMarks := [] }
      | .rateLimited =>
        let r := summarizeLoop now cap resetBoundary call fuel
          (mark_rate_limited resetBoundary pool key)
        { r with rateLimitMarks := key :: r.rateLimitMarks }
      | .otherError =>
        { result := none, pool := pool, increments := [], rateLimitMarks := [] }

/-- The Gemini branch of `summarize_transcript`: run the rotation loop with
the source's loop bound `len(user_gemini_keys)`. -/
def summarize_transcript_gemini (now cap resetBoundary : Nat)
    (call : String → CallOutcome) (pool : Pool) : LoopResult :=
  summarizeLoop now cap resetBoundary call pool.length pool

/-- Total usage count recorded in the pool for a given key value. -/
def usageSum (pool : Pool) (key : String) : Nat :=
  ((pool.filter (fun e => e.key_value = key)).map (fun e => e.usage_count)).sum

/-- Number of pool entries carrying a given key value (1 for real pools). -/
def countKey (pool : Pool) (key : String) : Nat :=
  (pool.filter (fun e => e.key_value = key)).length

end LLMService

namespace VideoViews

open LectureCache Video

/-- `RATE_LIMIT_WAIT = 60` from `cogs/lecture/video_views.py`. -/
def RATE_LIMIT_WAIT : Nat := 60

/-- The line filter of `_condense_summaries`: keep heading-level lines and
top-level bullet lines. -/
def keepLine (l : String) : Bool :=
  startsWithStr l "## " || startsWithStr l "- **"

/-- The accumulation loop of `_condense_summaries`: append each kept line and
return early as soon as the joined digest exceeds `max_chars`. -/
def condenseGo (max_chars : Nat) : (acc : List String) → (lines : List String) → List String
  | acc, [] => acc
  | acc, l :: rest =>
    if keepLine l then
      if max_chars < (String.intercalate "\n" (acc ++ [l])).length then acc ++ [l]
      else condenseGo max_chars (acc ++ [l]) rest
    else condenseGo max_chars acc rest

/-- `VideoLectureProcessor._condense_summaries(summaries, max_chars=2000)`:
walk the summaries in order, line by line (the early `return` exits both
loops, so the traversal is the flattened line list). -/
def condense_summaries (summaries : List String) (max_chars : Nat := 2000) : String :=
  String.intercalate "\n"
    (condenseGo max_chars [] (summaries.flatMap (fun s => s.splitOn "\n")))

/-- The per-segment loop of `VideoLectureProcessor.process` (lines 1101–1157),
modelled at the level of its summary/sleep data flow: a cached part is reused
and `continue` skips the inter-part sleep; an uncached part is generated with
the part-1 prompt (no context) or the part-N prompt carrying the condensed
digest of the summaries so far, and the fixed `RATE_LIMIT_WAIT` sleep runs
only while `part_num < len(parts)`.  `gen part_num window context` abstracts
the `gemini.generate_lecture_summary` remote call; the second component
counts the inter-part sleeps performed. -/
def segLoopGo (gen : Nat → Window → Option String → String)
    (cached : Nat → Option String) (total : Nat) :
    (i : Nat) → (summaries : List String) → (parts : List Window) → List String × Nat
  | _, summaries, [] => (summaries, 0)
  | i, summaries, w :: rest =>
    match cached i with
    | some s => segLoopGo gen cached total (i + 1) (summaries ++ [s]) rest
    | none =>
      let context := if i = 1 then none else some (condense_summaries summaries)
      let s := gen i w context
      let r := segLoopGo gen cached total (i + 1) (summaries ++ [s]) rest
      (r.1, (if i < total then 1 else 0) + r.2)

/-- The segment loop started as the source does: 1-based part numbers over
the plan, with the loop bound `len(parts)`. -/
def segmentLoop (gen : Nat → Window → Option String → String)
    (cached : Nat → Option String) (parts : List Window) : List String × Nat :=
  segLoopGo gen cached parts.length 1 [] parts

/-- The merge stage of `process` (lines 1163–1195): a cached merge result is
reused; otherwise with more than one summary a merge call runs after one
`RATE_LIMIT_WAIT` sleep; otherwise the final document is `summaries[0]`
directly (`none` models the `IndexError` on an empty list).  `mergeCall`
abstracts `gemini.merge_summaries`; the second component counts the sleeps
performed by this stage. -/
def mergeStage (mergeCache : Option String) (mergeCall : List String → String)
    (summaries : List String) : Option String × Nat :=
  match mergeCache with
  | some r => (some r, 0)
  | none =>
    if 1 < summaries.length then (some (mergeCall summaries), 1)
    else (summaries.head?, 0)

/-- One step of the `process` body (the `try` block of lines 780–1356), at
the granularity of its lecture-cache effects: the cache writes it performs
(`save_stage` at lines 838/1058/1190/1236, `save_part_summary` at line 1141,
`clear_stage` at line 1029), the cache reads (`get_stage` /
`get_cached_parts`), and remote/UI actions that either succeed or raise
(`remote false` models any exception escaping to the `except` handler). -/
inductive Step
  | saveStage (name : String) (data : Dict) (config : Option Dict)
  | savePart (part_num : Nat) (summary : String) (start : ℚ)
  | clearStage (name : String)
  | getStage (name : String)
  | getParts
  | remote (ok : Bool)
  deriving DecidableEq

/-- Effect of one body step on the cache directory; `none` when the step
raises. -/
def applyStep (now : Nat) (cache_id : String) (fs : FS) : Step → Option FS
  | .saveStage name data config => save_stage now fs cache_id name data config
  | .savePart p s q => save_part_summary now fs cache_id p s q
  | .clearStage name => clear_stage now fs cache_id name
  | .getStage name => some (get_stage now fs cache_id name).2
  | .getParts => some (get_cached_parts now fs cache_id).2
  | .remote ok => if ok then some fs else none

/-- Run the body steps in order, stopping at the first step that raises;
returns the cache directory at that point and whether the body completed. -/
def runBody (now : Nat) (cache_id : String) : FS → List Step → FS × Bool
  | fs, [] => (fs, true)
  | fs, st :: rest =>
    match applyStep now cache_id fs st with
    | some fs' => runBody now cache_id fs' rest
    | none => (fs, false)

/-- The cache behavior of `VideoLectureProcessor.process`: run the body; on
completion the success path deletes the pipeline cache
(`clear_pipeline_cache`, line 1353, the only such call); on an exception the
`except` handler (lines 1358–1380) only reports the error and performs no
cache operation, and the `finally` block only releases the queue slot. -/
def videoProcessRun (now : Nat) (cache_id : String) (fs : FS) (steps : List Step) : FS :=
  let r := runBody now cache_id fs steps
  if r.2 then clear_pipeline_cache r.1 cache_id else r.1

/-- The cache file for `cache_id` is absent, or decodable and protected from
mid-run expiry: it holds a transcript stage or its `created_at` TTL has not
lapsed at time `now`. -/
def fileOk (now : Nat) (cache_id : String) (fs : FS) : Bool :=
  match dget fs cache_id with
  | some (.valid c) =>
    hasTranscriptStage c || decide (now - c.created_at ≤ CACHE_EXPIRY_SECONDS)
  | some .corrupt => false
  | none => true

end VideoViews

namespace Examples

open LectureCache

/-- A cache holding a transcription stage, created at time 0. -/
def transcriptCache : JobCache :=
  { cache_id := "c", created_at := 0, updated_at := some 0, config := [],
    stages := [("transcript_ab", [("status", .jstr "completed")])], parts := [] }

/-- A cache without a transcription stage, created at 0 and last updated at
7000 (i.e. 300 s before a read at 7300). -/
def staleUpdatedCache : JobCache :=
  { cache_id := "c", created_at := 0, updated_at := some 7000, config := [],
    stages := [("video", [("status", .jstr "completed")])], parts := [] }

/-- A sample stage payload dict. -/
def videoData : Dict := [("path", .jstr "/tmp/v.mp4")]

end Examples

section DictLemmas

variable {α : Type}

theorem dget_cons (k₀ : String) (v₀ : α) (rest : List (String × α)) (k : String) :
    dget ((k₀, v₀) :: rest) k =
      match dget rest k with
      | some v => some v
      | none => if k₀ = k then some v₀ else none := rfl

theorem dget_append (a b : List (String × α)) (k : String) :
    dget (a ++ b) k =
      match dget b k with
      | some v => some v
      | none => dget a k := by
  induction a with
  | nil =>
    cases h : dget b k <;> simp [dget, h]
  | cons p rest ih =>
    obtain ⟨k₀, v₀⟩ := p
    rw [List.cons_append, dget_cons, ih, dget_cons]
    cases h1 : dget b k <;> cases h2 : dget rest k <;> simp

theorem dget_eq_none_of_not_mem_keys (d : List (String × α)) (k : String)
    (h : d.any (fun p => p.1 = k) = false) : dget d k = none := by
  induction d with
  | nil => rfl
  | cons p rest ih =>
    obtain ⟨k₀, v₀⟩ := p
    simp only [List.any_cons, Bool.or_eq_false_iff, decide_eq_false_iff_not] at h
    rw [dget_cons, ih (by simpa using h.2)]
    simp [h.1]

theorem any_key_map_set (d : List (String × α)) (k : String) (v : α) :
    ((d.map (fun p => if p.1 = k then (k, v) else p)).any (fun p => p.1 = k)) =
      (d.any (fun p => p.1 = k)) := by
  induction d with
  | nil => rfl
  | cons q rest ih =>
    rw [List.map_cons, List.any_cons, List.any_cons, ih]
    by_cases hq : q.1 = k <;> simp [hq]

theorem dget_map_set_self (d : List (String × α)) (k : String) (v : α)
    (hany : d.any (fun p => p.1 = k) = true) :
    dget (d.map (fun p => if p.1 = k then (k, v) else p)) k = some v := by
  induction d with
  | nil => simp at hany
  | cons p rest ih =>
    obtain ⟨k₀, v₀⟩ := p
    by_cases hk₀ : k₀ = k
    · subst hk₀
      rw [List.map_cons, if_pos rfl, dget_cons]
      by_cases hrest : rest.any (fun p => p.1 = k₀) = true
      · rw [ih hrest]
      · have hnone : dget (rest.map (fun p => if p.1 = k₀ then (k₀, v) else p)) k₀ = none := by
          apply dget_eq_none_of_not_mem_keys
          rw [any_key_map_set]
          exact Bool.eq_false_iff.mpr hrest
        rw [hnone]
        simp
    · simp only [List.any_cons, Bool.or_eq_true_iff, decide_eq_true_eq] at hany
      have hrest : rest.any (fun p => p.1 = k) = true := by
        rcases hany with h | h
        · exact absurd h hk₀
        · exact h
      rw [List.map_cons, if_neg (by simpa using hk₀), dget_cons, ih hrest]

theorem dget_map_set_ne (d : List (String × α)) (k k' : String) (v : α)
    (hne : k' ≠ k) :
    dget (d.map (fun p => if p.1 = k then (k, v) else p)) k' = dget d k' := by
  induction d with
  | nil => rfl
  | cons p rest ih =>
    obtain ⟨k₀, v₀⟩ := p
    by_cases hk₀ : k₀ = k
    · subst hk₀
      rw [List.map_cons, if_pos rfl, dget_cons, dget_cons, ih]
      cases h2 : dget rest k' <;> simp [Ne.symm hne]
    · rw [List.map_cons, if_neg (by simpa using hk₀), dget_cons, dget_cons, ih]

theorem dget_dset_self (d : List (String × α)) (k : String) (v : α) :
    dget (dset d k v) k = some v := by
  unfold dset
  split
  · next hany => exact dget_map_set_self d k v hany
  · next hany =>
    rw [dget_append]
    simp [dget]

theorem dget_dset_ne (d : List (String × α)) (k k' : String) (v : α)
    (hne : k' ≠ k) : dget (dset d k v) k' = dget d k' := by
  unfold dset
  split
  · exact dget_map_set_ne d k k' v hne
  · rw [dget_append]
    have : dget [(k, v)] k' = none := by simp [dget, Ne.symm hne]
    rw [this]

theorem dget_dremove_self (d : List (String × α)) (k : String) :
    dget (dremove d k) k = none := by
  apply dget_eq_none_of_not_mem_keys
  rw [List.any_eq_false]
  intro p hp
  rw [dremove, List.mem_filter] at hp
  have := hp.2
  simp only [decide_eq_true_eq] at this ⊢
  exact this

theorem dget_dremove_ne (d : List (String × α)) (k k' : String) (hne : k' ≠ k) :
    dget (dremove d k) k' = dget d k' := by
  induction d with
  | nil => rfl
  | cons p rest ih =>
    obtain ⟨k₀, v₀⟩ := p
    by_cases hk₀ : k₀ = k
    · have : dremove ((k₀, v₀) :: rest) k = dremove rest k := by
        simp [dremove, List.filter_cons, hk₀]
      rw [this, ih, dget_cons]
      cases h2 : dget rest k' <;> simp [hk₀, Ne.symm hne]
    · have : dremove ((k₀, v₀) :: rest) k = (k₀, v₀) :: dremove rest k := by
        simp [dremove, List.filter_cons, hk₀]
      rw [this, dget_cons, dget_cons, ih]

theorem dget_dextend (base data : List (String × α)) (k : String) :
    dget (dextend base data) k =
      match dget data k with
      | some v => some v
      | none => dget base k := by
  induction data generalizing base with
  | nil => rfl
  | cons p rest ih =>
    obtain ⟨k₀, v₀⟩ := p
    show dget (dextend (dset base k₀ v₀) rest) k = _
    rw [ih (dset base k₀ v₀), dget_cons]
    cases hrest : dget rest k with
    | some v => rfl
    | none =>
      by_cases hk₀ : k₀ = k
      · subst hk₀
        simp [dget_dset_self]
      · simp [dget_dset_ne base k₀ k v₀ (Ne.symm hk₀), hk₀]

end DictLemmas

open LectureCache in
/-- C10: a cache file that exists but is unreadable / invalid JSON makes
`get_pipeline_cache` return absent (`none`) without raising and without
deleting the file, so `get_stage` reports the stage absent and
`get_cached_parts` reports no cached parts, with the directory unchanged. -/
theorem corrupt_cache_degrades_to_absent
    (now : Nat) (fs : FS) (cache_id stage_name : String)
    (h : dget fs cache_id = some .corrupt) :
    get_pipeline_cache now fs cache_id = (none, fs) ∧
    get_stage now fs cache_id stage_name = (none, fs) ∧
    get_cached_parts now fs cache_id = ([], fs) := by
  have hp : get_pipeline_cache now fs cache_id = (none, fs) := by
    unfold get_pipeline_cache
    rw [h]
  refine ⟨hp, ?_, ?_⟩
  · unfold get_stage
    rw [hp]
  · unfold get_cached_parts
    rw [hp]

open LectureCache in
/-- Witness for C10 at a concrete corrupt cache directory. -/
theorem corrupt_cache_degrades_to_absent_witness :
    dget [("c", CacheFile.corrupt)] "c" = some .corrupt ∧
    get_stage 5000 [("c", CacheFile.corrupt)] "c" "video" =
      (none, [("c", CacheFile.corrupt)]) :=
  ⟨by decide, (corrupt_cache_degrades_to_absent 5000 [("c", .corrupt)] "c" "video"
      (by decide)).2.1⟩

open LectureCache Examples in
/-- C1 counterexample: `cleanup_expired_caches` deletes a TTL-lapsed cache
even though it contains a transcription stage, contradicting the claim that
such a cache is never deleted by the sweep. -/
theorem cleanup_deletes_transcript_cache_cex :
    hasTranscriptStage transcriptCache = true ∧
    CACHE_EXPIRY_SECONDS < 8000 - transcriptCache.created_at ∧
    cleanup_expired_caches 8000 [("c", .valid transcriptCache)] = ([], 1) := by
  refine ⟨by decide, by decide, ?_⟩
  decide

open LectureCache in
theorem cleanup_foldl_spec (now : Nat) (fs : FS) :
    ∀ acc : FS, ∀ n : Nat,
      fs.foldl
        (fun acc entry =>
          if sweepExpired now entry.2 then (acc.1, acc.2 + 1)
          else (acc.1 ++ [entry], acc.2)) (acc, n) =
      (acc ++ fs.filter (fun p => !sweepExpired now p.2),
       n + (fs.filter (fun p => sweepExpired now p.2)).length) := by
  induction fs with
  | nil => intro acc n; simp
  | cons e rest ih =>
    intro acc n
    rw [List.foldl_cons]
    by_cases he : sweepExpired now e.2 = true
    · rw [if_pos he]
      rw [ih acc (n + 1)]
      simp [List.filter_cons, he, Nat.add_comm, Nat.add_assoc, Nat.add_left_comm]
    · rw [if_neg he]
      rw [ih (acc ++ [e]) n]
      simp only [Bool.not_eq_true] at he
      simp [List.filter_cons, he]

open LectureCache in
/-- C1 (amended): the sweep `cleanup_expired_caches` deletes exactly the
readable cache files whose `created_at` TTL has lapsed — regardless of
whether they contain a transcription stage (the transcription exemption is
applied only by `get_pipeline_cache`, not by the sweep) — keeps every other
file (including unreadable ones), and returns the number deleted. -/
theorem cleanup_expired_caches_by_age (now : Nat) (fs : FS) :
    (∀ cid f, (cid, f) ∈ (cleanup_expired_caches now fs).1 ↔
      ((cid, f) ∈ fs ∧ sweepExpired now f = false)) ∧
    (cleanup_expired_caches now fs).2 =
      (fs.filter (fun p => sweepExpired now p.2)).length := by
  unfold cleanup_expired_caches
  rw [cleanup_foldl_spec now fs [] 0]
  constructor
  · intro cid f
    simp [List.mem_filter]
  · simp

open LectureCache Examples in
/-- C4 counterexample: a cache last updated 300 s before the read (well
within 2 hours of inactivity) but created more than 2 hours earlier is
deleted and treated as absent by `get_pipeline_cache`: expiry is measured
from `created_at`, not from the last update. -/
theorem expiry_ignores_updated_at_cex :
    staleUpdatedCache.updated_at = some 7000 ∧
    7300 - 7000 ≤ CACHE_EXPIRY_SECONDS ∧
    CACHE_EXPIRY_SECONDS < 7300 - staleUpdatedCache.created_at ∧
    hasTranscriptStage staleUpdatedCache = false ∧
    get_pipeline_cache 7300 [("c", .valid staleUpdatedCache)] "c" = (none, []) := by
  refine ⟨by decide, by decide, by decide, by decide, ?_⟩
  decide

open LectureCache in
/-- C4 (amended): for a readable cache without a transcription stage, expiry
in `get_pipeline_cache` is decided solely by the *creation* time: the cache
is deleted and treated as absent exactly when `now - created_at` exceeds the
2-hour TTL, and is returned with the directory untouched otherwise —
irrespective of `updated_at`, so stage writes do not extend its life. -/
theorem expiry_measured_from_created_at
    (now : Nat) (fs : FS) (cache_id : String) (c : JobCache)
    (hmem : dget fs cache_id = some (.valid c))
    (htr : hasTranscriptStage c = false) :
    (CACHE_EXPIRY_SECONDS < now - c.created_at →
      get_pipeline_cache now fs cache_id = (none, dremove fs cache_id)) ∧
    (now - c.created_at ≤ CACHE_EXPIRY_SECONDS →
      get_pipeline_cache now fs cache_id = (some c, fs)) := by
  have hform : get_pipeline_cache now fs cache_id =
      if CACHE_EXPIRY_SECONDS < now - c.created_at then (none, dremove fs cache_id)
      else (some c, fs) := by
    simp [get_pipeline_cache, hmem, htr]
  constructor
  · intro hexp
    rw [hform, if_pos hexp]
  · intro hfresh
    rw [hform, if_neg (Nat.not_lt.mpr hfresh)]

open LectureCache Examples in
/-- Witness for the amended C4 theorem at a concrete fresh and a concrete
expired read time. -/
theorem expiry_measured_from_created_at_witness :
    dget [("c", CacheFile.valid staleUpdatedCache)] "c" = some (.valid staleUpdatedCache) ∧
    hasTranscriptStage staleUpdatedCache = false ∧
    (CACHE_EXPIRY_SECONDS < 7300 - staleUpdatedCache.created_at →
      get_pipeline_cache 7300 [("c", .valid staleUpdatedCache)] "c" =
        (none, dremove [("c", .valid staleUpdatedCache)] "c")) :=
  ⟨by decide, by decide,
    (expiry_measured_from_created_at 7300 [("c", .valid staleUpdatedCache)] "c"
      staleUpdatedCache (by decide) (by decide)).1⟩

theorem dget_status_saved_at_base (t : Nat) (k : String) (hk : k ≠ "saved_at") :
    dget [("status", JVal.jstr "completed"), ("saved_at", JVal.jnat t)] k =
      if "status" = k then some (JVal.jstr "completed") else none := by
  simp [dget, Ne.symm hk]

open LectureCache in
theorem save_stage_shape (now : Nat) (fs fs1 : FS) (cache_id stage_name : String)
    (data : Dict) (config : Option Dict)
    (h1 : save_stage now fs cache_id stage_name data config = some fs1) :
    ∃ c1 : JobCache, fs1 = dset fs cache_id (CacheFile.valid c1) ∧
      dget c1.stages stage_name = some (mkStageRecord now data) := by
  unfold save_stage at h1
  cases hfs : dget fs cache_id with
  | none =>
    rw [hfs] at h1
    refine ⟨_, (Option.some.inj h1).symm, ?_⟩
    simp [dget]
  | some f =>
    cases f with
    | corrupt =>
      rw [hfs] at h1
      exact absurd h1 (by simp)
    | valid c =>
      rw [hfs] at h1
      refine ⟨_, (Option.some.inj h1).symm, ?_⟩
      exact dget_dset_self _ _ _

open LectureCache in
/-- C3: after `save_stage`, a `get_stage` within the TTL returns the saved
record — it carries every payload field of `data` and, unless the payload
overrides them, `status = "completed"` and the save time — and the directory
is left unchanged; a second `save_stage` with the same payload is a no-op in
effect: the stored stage payload is unchanged outside the `saved_at`
timestamp, and sibling stages and the per-part segment results are
untouched. -/
theorem save_stage_roundtrip_idempotent
    (now now2 tq : Nat) (fs fs1 fs2 : FS) (cache_id stage_name : String)
    (data : Dict) (config : Option Dict)
    (h1 : save_stage now fs cache_id stage_name data config = some fs1)
    (h2 : save_stage now2 fs1 cache_id stage_name data config = some fs2)
    (httl : tq - createdOf fs1 cache_id ≤ CACHE_EXPIRY_SECONDS) :
    ((get_stage tq fs1 cache_id stage_name).2 = fs1 ∧
     ∃ r, (get_stage tq fs1 cache_id stage_name).1 = some r ∧
       (∀ k, k ≠ "status" → k ≠ "saved_at" → dget r k = dget data k) ∧
       (dget data "status" = none → dget r "status" = some (.jstr "completed")) ∧
       (dget data "saved_at" = none → dget r "saved_at" = some (.jnat now))) ∧
    (∀ k, k ≠ "saved_at" →
      (stageOf fs2 cache_id stage_name).bind (fun r => dget r k) =
      (stageOf fs1 cache_id stage_name).bind (fun r => dget r k)) ∧
    (∀ n, n ≠ stage_name → stageOf fs2 cache_id n = stageOf fs1 cache_id n) ∧
    partsOf fs2 cache_id = partsOf fs1 cache_id := by
  obtain ⟨c1, hfs1eq, hstage1⟩ := save_stage_shape now fs fs1 cache_id stage_name data config h1
  have hfs1 : dget fs1 cache_id = some (.valid c1) := by
    rw [hfs1eq]; exact dget_dset_self _ _ _
  have hcreated : createdOf fs1 cache_id = c1.created_at := by
    simp [createdOf, hfs1]
  -- get_pipeline_cache returns the cache unchanged
  have hget : get_pipeline_cache tq fs1 cache_id = (some c1, fs1) := by
    unfold get_pipeline_cache
    rw [hfs1]
    by_cases htr : hasTranscriptStage c1 = true
    · simp [htr]
    · have hb : (hasTranscriptStage c1 && true) = false := by
        simp [Bool.eq_false_iff.mpr htr]
      rw [hcreated] at httl
      simp [hb, Nat.not_lt.mpr httl]
  -- second save: structure of fs2
  have h2' : fs2 = dset fs1 cache_id (CacheFile.valid
      { c1 with updated_at := some now2,
                stages := dset c1.stages stage_name (mkStageRecord now2 data) }) := by
    unfold save_stage at h2
    rw [hfs1] at h2
    exact (Option.some.inj h2).symm
  have hfs2 : dget fs2 cache_id = some (.valid
      { c1 with updated_at := some now2,
                stages := dset c1.stages stage_name (mkStageRecord now2 data) }) := by
    rw [h2']; exact dget_dset_self _ _ _
  refine ⟨⟨?_, ?_⟩, ?_, ?_, ?_⟩
  · unfold get_stage
    rw [hget]
  · refine ⟨mkStageRecord now data, ?_, ?_, ?_, ?_⟩
    · unfold get_stage
      rw [hget]
      exact hstage1
    · intro k hks hka
      unfold mkStageRecord
      rw [dget_dextend]
      cases hd : dget data k with
      | some v => rfl
      | none =>
        rw [dget_status_saved_at_base now k hka, if_neg (fun h => hks h.symm)]
    · intro hd
      unfold mkStageRecord
      rw [dget_dextend, hd, dget_status_saved_at_base now "status" (by decide), if_pos rfl]
    · intro hd
      unfold mkStageRecord
      rw [dget_dextend, hd]
      rfl
  · intro k hk
    have hs2 : stageOf fs2 cache_id stage_name = some (mkStageRecord now2 data) := by
      unfold stageOf
      rw [hfs2]
      exact dget_dset_self _ _ _
    have hs1 : stageOf fs1 cache_id stage_name = some (mkStageRecord now data) := by
      unfold stageOf
      rw [hfs1]
      exact hstage1
    rw [hs1, hs2]
    show dget (mkStageRecord now2 data) k = dget (mkStageRecord now data) k
    unfold mkStageRecord
    rw [dget_dextend, dget_dextend]
    cases hd : dget data k with
    | some v => rfl
    | none =>
      rw [dget_status_saved_at_base now k hk, dget_status_saved_at_base now2 k hk]
  · intro n hn
    unfold stageOf
    rw [hfs1, hfs2]
    exact dget_dset_ne _ _ _ _ hn
  · unfold partsOf
    rw [hfs1, hfs2]

open LectureCache Examples in
/-- Witness for C3: a concrete save at time 0, re-save at time 50, and a read
at time 100. -/
theorem save_stage_roundtrip_idempotent_witness :
    ∃ fs1 fs2 : FS,
      save_stage 0 [] "c" "video" videoData none = some fs1 ∧
      save_stage 50 fs1 "c" "video" videoData none = some fs2 ∧
      100 - createdOf fs1 "c" ≤ CACHE_EXPIRY_SECONDS ∧
      (∀ n, n ≠ "video" → stageOf fs2 "c" n = stageOf fs1 "c" n) := by
  refine ⟨_, _, rfl, rfl, by decide, ?_⟩
  exact (save_stage_roundtrip_idempotent 0 50 100 [] _ _ "c" "video" videoData none
    rfl rfl (by decide)).2.2.1

open Video in
theorem calculate_num_parts_cases (size_bytes : Nat) :
    calculate_num_parts size_bytes = 1 ∨ calculate_num_parts size_bytes = 2 ∨
      calculate_num_parts size_bytes = 3 := by
  simp only [calculate_num_parts]
  split_ifs <;> tauto

open Video in
/-- C2: for every positive total duration and every size, the segment plan of
`calculate_num_parts` + `split_video` is a non-empty list of contiguous
windows starting at 0 (each window starts where the previous ends) with
positive durations summing exactly to the total duration — equal split
leaves no remainder in exact arithmetic — and a size at or below the 380 MB
limit yields exactly one window covering the whole duration from 0. -/
theorem segment_plan_covers_duration (duration : ℚ) (size_bytes : Nat)
    (hd : 0 < duration) :
    split_video_plan duration (calculate_num_parts size_bytes) ≠ [] ∧
    chainFrom 0 (split_video_plan duration (calculate_num_parts size_bytes)) ∧
    sumDur (split_video_plan duration (calculate_num_parts size_bytes)) = duration ∧
    (∀ w ∈ split_video_plan duration (calculate_num_parts size_bytes), 0 < w.duration) ∧
    ((size_bytes : ℚ) / (1024 * 1024) ≤ MAX_PART_SIZE_MB →
      split_video_plan duration (calculate_num_parts size_bytes) =
        [{ start_seconds := 0, duration := duration }]) := by
  have hone : ∀ m : Nat, m ≤ 1 →
      split_video_plan duration m = [{ start_seconds := 0, duration := duration }] := by
    intro m hm
    unfold split_video_plan
    rw [if_pos hm]
  rcases calculate_num_parts_cases size_bytes with hn | hn | hn <;> rw [hn]
  · refine ⟨by simp [hone 1 le_rfl], ?_, ?_, ?_, fun _ => hone 1 le_rfl⟩
    · rw [hone 1 le_rfl]
      exact ⟨rfl, trivial⟩
    · rw [hone 1 le_rfl]
      simp [sumDur]
    · rw [hone 1 le_rfl]
      intro w hw
      simp at hw
      rw [hw]
      exact hd
  · have hplan : split_video_plan duration 2 =
        [{ start_seconds := 0 * (duration / 2), duration := duration / 2 },
         { start_seconds := 1 * (duration / 2), duration := duration / 2 }] := by
      unfold split_video_plan
      rw [if_neg (by norm_num)]
      norm_num [List.range_succ]
    have hsz : ¬ (size_bytes : ℚ) / (1024 * 1024) ≤ MAX_PART_SIZE_MB := by
      intro h
      have : calculate_num_parts size_bytes = 1 := by
        simp only [calculate_num_parts]
        rw [if_pos h]
      omega
    refine ⟨by simp [hplan], ?_, ?_, ?_, fun h => absurd h hsz⟩
    · rw [hplan]
      refine ⟨by ring, ?_, trivial⟩
      push_cast
      ring
    · rw [hplan]
      simp only [sumDur, List.map_cons, List.map_nil, List.sum_cons, List.sum_nil]
      ring
    · rw [hplan]
      intro w hw
      have hpos : 0 < duration / 2 := by positivity
      simp at hw
      rcases hw with hw | hw <;> rw [hw] <;> exact hpos
  · have hplan : split_video_plan duration 3 =
        [{ start_seconds := 0 * (duration / 3), duration := duration / 3 },
         { start_seconds := 1 * (duration / 3), duration := duration / 3 },
         { start_seconds := 2 * (duration / 3), duration := duration / 3 }] := by
      unfold split_video_plan
      rw [if_neg (by norm_num)]
      norm_num [List.range_succ]
    have hsz : ¬ (size_bytes : ℚ) / (1024 * 1024) ≤ MAX_PART_SIZE_MB := by
      intro h
      have : calculate_num_parts size_bytes = 1 := by
        simp only [calculate_num_parts]
        rw [if_pos h]
      omega
    refine ⟨by simp [hplan], ?_, ?_, ?_, fun h => absurd h hsz⟩
    · rw [hplan]
      refine ⟨by ring, ?_, ?_, trivial⟩
      · push_cast
        ring
      · push_cast
        ring
    · rw [hplan]
      simp only [sumDur, List.map_cons, List.map_nil, List.sum_cons, List.sum_nil]
      ring
    · rw [hplan]
      intro w hw
      have hpos : 0 < duration / 3 := by positivity
      simp at hw
      rcases hw with hw | hw | hw <;> rw [hw] <;> exact hpos

open Video in
/-- Witness for C2: the spec's 50 MB / 600 s single-part scenario. -/
theorem segment_plan_covers_duration_witness :
    (0 : ℚ) < 600 ∧
    ((50 * 1024 * 1024 : Nat) : ℚ) / (1024 * 1024) ≤ MAX_PART_SIZE_MB ∧
    split_video_plan 600 (calculate_num_parts (50 * 1024 * 1024)) =
      [{ start_seconds := 0, duration := 600 }] :=
  ⟨by norm_num, by norm_num [MAX_PART_SIZE_MB],
    (segment_plan_covers_duration 600 (50 * 1024 * 1024) (by norm_num)).2.2.2.2
      (by norm_num [MAX_PART_SIZE_MB])⟩

open Fingerprint in
/-- C7: fingerprint computation is a pure function of its inputs and never
reads the wall clock: two environments that agree on the upload directory
(the only ambient state the helpers consult, fixing the filename+size
identity of an uploaded slides file) yield the same fingerprint for the same
(video URL, slides URL, user id) triple, whatever their clock values. -/
theorem generate_pipeline_id_time_independent
    (md5hex : String → String) (e1 e2 : Env) (hfs : e1.tmp = e2.tmp)
    (video_url : String) (slides_url : Option String) (user_id : Nat) :
    generate_pipeline_id e1 md5hex video_url slides_url user_id =
      generate_pipeline_id e2 md5hex video_url slides_url user_id := by
  obtain ⟨n1, t1⟩ := e1
  obtain ⟨n2, t2⟩ := e2
  cases hfs
  rfl

open Fingerprint in
/-- Witness for C7: same Drive video link, slides upload and user, clocks 0
and 99999. -/
theorem generate_pipeline_id_time_independent_witness :
    (Env.mk 0 ⟨[("/tmp/slides.pdf", 777)]⟩).tmp =
      (Env.mk 99999 ⟨[("/tmp/slides.pdf", 777)]⟩).tmp ∧
    generate_pipeline_id ⟨0, ⟨[("/tmp/slides.pdf", 777)]⟩⟩ (fun s => s)
        "https://drive.google.com/file/d/abc123/view" (some "/tmp/slides.pdf") 42 =
      generate_pipeline_id ⟨99999, ⟨[("/tmp/slides.pdf", 777)]⟩⟩ (fun s => s)
        "https://drive.google.com/file/d/abc123/view" (some "/tmp/slides.pdf") 42 :=
  ⟨rfl, generate_pipeline_id_time_independent (fun s => s) _ _ rfl _ _ _⟩

namespace LLMService

theorem usageSum_cons (e : CredentialEntry) (l : Pool) (k : String) :
    usageSum (e :: l) k =
      (if e.key_value = k then e.usage_count else 0) + usageSum l k := by
  unfold usageSum
  by_cases h : e.key_value = k <;> simp [List.filter_cons, h]

theorem countKey_cons (e : CredentialEntry) (l : Pool) (k : String) :
    countKey (e :: l) k = (if e.key_value = k then 1 else 0) + countKey l k := by
  unfold countKey
  by_cases h : e.key_value = k <;> simp [List.filter_cons, h] <;> omega

theorem mark_cons (b : Nat) (e : CredentialEntry) (l : Pool) (key : String) :
    mark_rate_limited b (e :: l) key =
      (if e.key_value = key then { e with cooldown_until := b } else e) ::
        mark_rate_limited b l key := rfl

theorem increment_cons (e : CredentialEntry) (l : Pool) (key : String) :
    increment_count (e :: l) key =
      (if e.key_value = key then { e with usage_count := e.usage_count + 1 } else e) ::
        increment_count l key := rfl

theorem usageSum_mark (b : Nat) (pool : Pool) (key k : String) :
    usageSum (mark_rate_limited b pool key) k = usageSum pool k := by
  induction pool with
  | nil => rfl
  | cons e rest ih =>
    rw [mark_cons, usageSum_cons, usageSum_cons, ih]
    congr 1
    by_cases he : e.key_value = key <;> simp [he]

theorem countKey_mark (b : Nat) (pool : Pool) (key k : String) :
    countKey (mark_rate_limited b pool key) k = countKey pool k := by
  induction pool with
  | nil => rfl
  | cons e rest ih =>
    rw [mark_cons, countKey_cons, countKey_cons, ih]
    congr 1
    by_cases he : e.key_value = key <;> simp [he]

theorem usageSum_increment_self (pool : Pool) (key : String) :
    usageSum (increment_count pool key) key = usageSum pool key + countKey pool key := by
  induction pool with
  | nil => rfl
  | cons e rest ih =>
    rw [increment_cons, usageSum_cons, usageSum_cons, countKey_cons, ih]
    by_cases he : e.key_value = key <;> simp [he] <;> omega

theorem usageSum_increment_ne (pool : Pool) (key k : String) (h : k ≠ key) :
    usageSum (increment_count pool key) k = usageSum pool k := by
  induction pool with
  | nil => rfl
  | cons e rest ih =>
    rw [increment_cons, usageSum_cons, usageSum_cons, ih]
    congr 1
    by_cases he : e.key_value = key <;> simp [he, Ne.symm h]

theorem summarizeLoop_succ (now cap resetBoundary : Nat)
    (call : String → CallOutcome) (n : Nat) (pool : Pool) :
    summarizeLoop now cap resetBoundary call (n + 1) pool =
      match get_available_key now cap pool with
      | none => { result := none, pool := pool, increments := [], rateLimitMarks := [] }
      | some key =>
        match call key with
        | .success s =>
          { result := some s, pool := increment_count pool key,
            increments := [key], rateLimitMarks := [] }
        | .rateLimited =>
          let r := summarizeLoop now cap resetBoundary call n
            (mark_rate_limited resetBoundary pool key)
          { r with rateLimitMarks := key :: r.rateLimitMarks }
        | .otherError =>
          { result := none, pool := pool, increments := [], rateLimitMarks := [] } := rfl

end LLMService

open LLMService in
/-- C5: in the Gemini credential-rotation loop of `summarize_transcript`,
`increment_count` runs exactly once — on the key whose remote call succeeded
and produced the returned summary — and never for a key whose call failed;
every `mark_rate_limited` call targets a key whose call was classified as a
rate-limit/quota error, and such a key is never incremented; usage counts in
the pool change only for the single incremented key, by exactly one per pool
entry carrying it. -/
theorem rotation_increments_only_success
    (now cap resetBoundary : Nat) (call : String → CallOutcome)
    (fuel : Nat) (pool : LLMService.Pool) :
    (∀ k ∈ (summarizeLoop now cap resetBoundary call fuel pool).increments,
      ∃ s, call k = .success s ∧
        (summarizeLoop now cap resetBoundary call fuel pool).result = some s) ∧
    ((summarizeLoop now cap resetBoundary call fuel pool).result = none →
      (summarizeLoop now cap resetBoundary call fuel pool).increments = []) ∧
    (∀ s, (summarizeLoop now cap resetBoundary call fuel pool).result = some s →
      ∃ k, (summarizeLoop now cap resetBoundary call fuel pool).increments = [k]) ∧
    (∀ k ∈ (summarizeLoop now cap resetBoundary call fuel pool).rateLimitMarks,
      call k = .rateLimited ∧
        k ∉ (summarizeLoop now cap resetBoundary call fuel pool).increments) ∧
    (∀ k, k ∉ (summarizeLoop now cap resetBoundary call fuel pool).increments →
      usageSum (summarizeLoop now cap resetBoundary call fuel pool).pool k =
        usageSum pool k) ∧
    (∀ k ∈ (summarizeLoop now cap resetBoundary call fuel pool).increments,
      usageSum (summarizeLoop now cap resetBoundary call fuel pool).pool k =
        usageSum pool k + countKey pool k) := by
  induction fuel generalizing pool with
  | zero =>
    simp [summarizeLoop]
  | succ n ih =>
    cases hk : get_available_key now cap pool with
    | none =>
      simp [summarizeLoop_succ, hk]
    | some key =>
      cases hc : call key with
      | success s =>
        simp only [summarizeLoop_succ, hk, hc]
        refine ⟨?_, ?_, ?_, ?_, ?_, ?_⟩
        · intro k hkmem
          simp at hkmem
          subst hkmem
          exact ⟨s, hc, rfl⟩
        · intro h
          simp at h
        · intro s' _
          exact ⟨key, rfl⟩
        · intro k hkmem
          simp at hkmem
        · intro k hkmem
          simp at hkmem
          exact usageSum_increment_ne pool key k hkmem
        · intro k hkmem
          simp at hkmem
          subst hkmem
          exact usageSum_increment_self pool k
      | rateLimited =>
        simp only [summarizeLoop_succ, hk, hc]
        obtain ⟨ih1, ih2, ih3, ih4, ih5, ih6⟩ :=
          ih (mark_rate_limited resetBoundary pool key)
        refine ⟨?_, ?_, ?_, ?_, ?_, ?_⟩
        · exact ih1
        · exact ih2
        · exact ih3
        · intro k hkmem
          simp only [List.mem_cons] at hkmem
          rcases hkmem with hkmem | hkmem
          · subst hkmem
            refine ⟨hc, fun hmem => ?_⟩
            obtain ⟨s, hs, _⟩ := ih1 k hmem
            rw [hc] at hs
            exact absurd hs (by simp)
          · exact ih4 k hkmem
        · intro k hkmem
          rw [ih5 k hkmem, usageSum_mark]
        · intro k hkmem
          rw [ih6 k hkmem, usageSum_mark, countKey_mark]
      | otherError =>
        simp [summarizeLoop_succ, hk, hc]

open LLMService in
/-- The spec's §8 rate-limit rotation scenario, concretely: the provider
returns a quota error on key 1, the loop cools it down and succeeds with
key 2; key 1's usage count is unchanged while key 2's is incremented. -/
theorem rotation_scenario_two_keys :
    summarize_transcript_gemini 10 100 999
        (fun k => if k = "k1" then .rateLimited else .success "S")
        [⟨"k1", 3, 0⟩, ⟨"k2", 7, 0⟩] =
      { result := some "S", pool := [⟨"k1", 3, 999⟩, ⟨"k2", 8, 0⟩],
        increments := ["k2"], rateLimitMarks := ["k1"] } := by
  decide

open VideoViews in
theorem condenseGo_spec (m : Nat) :
    ∀ (lines acc : List String),
      (String.intercalate "\n" acc).length ≤ m →
      ∃ t, condenseGo m acc lines = acc ++ t ∧
        t = (lines.filter keepLine).take t.length ∧
        (∀ l ∈ t, keepLine l = true) ∧
        (t ≠ lines.filter keepLine →
          m < (String.intercalate "\n" (acc ++ t)).length) ∧
        (t ≠ [] → (String.intercalate "\n" (acc ++ t.dropLast)).length ≤ m) := by
  intro lines
  induction lines with
  | nil =>
    intro acc hacc
    refine ⟨[], by simp [condenseGo], by simp, by simp, ?_, by simp⟩
    intro h
    exact absurd rfl h
  | cons l rest ih =>
    intro acc hacc
    by_cases hl : keepLine l = true
    · by_cases hover : m < (String.intercalate "\n" (acc ++ [l])).length
      · refine ⟨[l], ?_, ?_, ?_, ?_, ?_⟩
        · simp [condenseGo, hl, hover]
        · simp [List.filter_cons, hl]
        · intro x hx
          simp at hx
          subst hx
          exact hl
        · intro _
          exact hover
        · intro _
          simpa using hacc
      · obtain ⟨t', ht'eq, ht'take, ht'mem, ht'over, ht'drop⟩ :=
          ih (acc ++ [l]) (Nat.not_lt.mp hover)
        refine ⟨l :: t', ?_, ?_, ?_, ?_, ?_⟩
        · rw [show condenseGo m acc (l :: rest) = condenseGo m (acc ++ [l]) rest by
            simp [condenseGo, hl, hover]]
          rw [ht'eq, List.append_assoc]
          rfl
        · rw [List.filter_cons, if_pos hl]
          simp only [List.length_cons, List.take_succ_cons]
          rw [← ht'take]
        · intro x hx
          rcases List.mem_cons.mp hx with hx | hx
          · subst hx; exact hl
          · exact ht'mem x hx
        · intro hne
          have hne' : t' ≠ rest.filter keepLine := by
            intro h
            apply hne
            rw [List.filter_cons, if_pos hl, h]
          have := ht'over hne'
          rw [List.append_assoc] at this
          exact this
        · intro _
          cases t' with
          | nil =>
            simpa using hacc
          | cons a b =>
            have := ht'drop (by simp)
            rw [List.append_assoc] at this
            simpa using this
    · obtain ⟨t', ht'eq, ht'take, ht'mem, ht'over, ht'drop⟩ := ih acc hacc
      have hfilter : (l :: rest).filter keepLine = rest.filter keepLine := by
        rw [List.filter_cons, if_neg hl]
      refine ⟨t', ?_, ?_, ht'mem, ?_, ht'drop⟩
      · rw [show condenseGo m acc (l :: rest) = condenseGo m acc rest by
          simp [condenseGo, hl]]
        exact ht'eq
      · rw [hfilter]
        exact ht'take
      · rw [hfilter]
        exact ht'over

open VideoViews in
/-- C8: the condensed context digest `_condense_summaries(summaries)` is the
join of a prefix of the kept lines (heading-level `## ` lines and top-level
`- **` bullet lines) of the prior summaries in order; construction stops as
soon as the accumulated digest exceeds the fixed 2000-character budget: the
digest minus its last line is always within the budget, and a digest that did
not consume every kept line exceeds it.  In the per-segment loop, exactly
this digest (over the summaries so far) is what is passed as context to the
part-k prompt for k > 1 in place of the raw prior summaries. -/
theorem condense_digest_spec (summaries : List String) :
    (∃ t, condense_summaries summaries = String.intercalate "\n" t ∧
      t = ((summaries.flatMap (fun s => s.splitOn "\n")).filter keepLine).take t.length ∧
      (∀ l ∈ t, keepLine l = true) ∧
      (t ≠ (summaries.flatMap (fun s => s.splitOn "\n")).filter keepLine →
        2000 < (String.intercalate "\n" t).length) ∧
      (t ≠ [] → (String.intercalate "\n" t.dropLast).length ≤ 2000)) ∧
    (∀ (gen : Nat → Video.Window → Option String → String) cached total i acc w rest,
      cached i = none → i ≠ 1 →
      segLoopGo gen cached total i acc (w :: rest) =
        ((segLoopGo gen cached total (i + 1)
            (acc ++ [gen i w (some (condense_summaries acc))]) rest).1,
         (if i < total then 1 else 0) +
           (segLoopGo gen cached total (i + 1)
            (acc ++ [gen i w (some (condense_summaries acc))]) rest).2)) := by
  constructor
  · obtain ⟨t, hteq, httake, htmem, htover, htdrop⟩ :=
      condenseGo_spec 2000 (summaries.flatMap (fun s => s.splitOn "\n")) [] (by decide)
    refine ⟨t, ?_, httake, htmem, ?_, ?_⟩
    · unfold condense_summaries
      rw [hteq]
      simp
    · intro h
      have := htover h
      simpa using this
    · intro h
      have := htdrop h
      simpa using this
  · intro gen cached total i acc w rest hcached hi
    simp [segLoopGo, hcached, hi]

open Video VideoViews in
/-- C6: for a segment plan with exactly one part, the per-segment loop
performs no inter-segment `RATE_LIMIT_WAIT` sleep, and — absent a cached
merge result — the merge stage runs no merge call and sleeps no further: the
final document is exactly the single segment's summary output (from the part
cache if present, else the one generated summary), i.e. the value before
post-processing. -/
theorem single_part_skips_delay_and_merge
    (gen : Nat → Window → Option String → String)
    (cached : Nat → Option String) (mergeCall : List String → String) (w : Window) :
    (segmentLoop gen cached [w]).2 = 0 ∧
    (segmentLoop gen cached [w]).1 =
      [match cached 1 with | some s => s | none => gen 1 w none] ∧
    mergeStage none mergeCall (segmentLoop gen cached [w]).1 =
      (some (match cached 1 with | some s => s | none => gen 1 w none), 0) := by
  cases hc : cached 1 with
  | some s => simp [segmentLoop, segLoopGo, hc, mergeStage]
  | none => simp [segmentLoop, segLoopGo, hc, mergeStage]

open LectureCache in
theorem not_corrupt_of_fileOk (now : Nat) (cache_id : String) (fs : FS)
    (h : VideoViews.fileOk now cache_id fs = true) :
    dget fs cache_id ≠ some .corrupt := by
  intro hd
  unfold VideoViews.fileOk at h
  rw [hd] at h
  simp at h

open LectureCache in
theorem get_pipeline_unchanged_of_fileOk (now : Nat) (cache_id : String) (fs : FS)
    (h : VideoViews.fileOk now cache_id fs = true) :
    (get_pipeline_cache now fs cache_id).2 = fs := by
  unfold get_pipeline_cache
  cases hd : dget fs cache_id with
  | none => rfl
  | some f =>
    cases f with
    | corrupt => rfl
    | valid c =>
      unfold VideoViews.fileOk at h
      rw [hd] at h
      by_cases ht : hasTranscriptStage c = true
      · simp [ht]
      · have hfresh : now - c.created_at ≤ CACHE_EXPIRY_SECONDS := by
          rcases Bool.or_eq_true_iff.mp h with h' | h'
          · exact absurd h' ht
          · exact of_decide_eq_true h'
        simp [Bool.eq_false_iff.mpr ht, Nat.not_lt.mpr hfresh]

open LectureCache in
theorem get_stage_snd_eq (now : Nat) (cache_id stage_name : String) (fs : FS) :
    (get_stage now fs cache_id stage_name).2 = (get_pipeline_cache now fs cache_id).2 := by
  unfold get_stage
  cases hg : get_pipeline_cache now fs cache_id with
  | mk a b => cases a <;> rfl

open LectureCache in
theorem get_parts_snd_eq (now : Nat) (cache_id : String) (fs : FS) :
    (get_cached_parts now fs cache_id).2 = (get_pipeline_cache now fs cache_id).2 := by
  unfold get_cached_parts
  cases hg : get_pipeline_cache now fs cache_id with
  | mk a b => cases a <;> rfl

theorem any_key_dset_mono {α : Type} (d : List (String × α)) (k : String) (v : α)
    (q : String → Bool) (h : d.any (fun p => q p.1) = true) :
    ((dset d k v).any (fun p => q p.1)) = true := by
  unfold dset
  split
  · obtain ⟨p, hp, hq⟩ := List.any_eq_true.mp h
    refine List.any_eq_true.mpr ?_
    by_cases hpk : p.1 = k
    · refine ⟨(k, v), List.mem_map.mpr ⟨p, hp, by simp [hpk]⟩, ?_⟩
      simp only [decide_eq_true_eq] at hq ⊢
      rw [← hpk]
      exact hq
    · exact ⟨p, List.mem_map.mpr ⟨p, hp, by simp [hpk]⟩, hq⟩
  · rw [List.any_append, h]
    simp

theorem any_key_dset_new {α : Type} (d : List (String × α)) (k : String) (v : α)
    (q : String → Bool) (h : q k = true) :
    ((dset d k v).any (fun p => q p.1)) = true := by
  unfold dset
  split
  · next hany =>
    obtain ⟨p, hp, hq⟩ := List.any_eq_true.mp hany
    refine List.any_eq_true.mpr ⟨(k, v), List.mem_map.mpr ⟨p, hp, ?_⟩, by simpa using h⟩
    simp only [decide_eq_true_eq] at hq
    simp [hq]
  · rw [List.any_append]
    simp [h]

theorem any_key_dremove {α : Type} (d : List (String × α)) (n : String)
    (q : String → Bool) (h : d.any (fun p => q p.1) = true)
    (hq : ∀ key, q key = true → key ≠ n) :
    ((dremove d n).any (fun p => q p.1)) = true := by
  obtain ⟨p, hp, hqp⟩ := List.any_eq_true.mp h
  refine List.any_eq_true.mpr ⟨p, ?_, hqp⟩
  rw [dremove, List.mem_filter]
  refine ⟨hp, ?_⟩
  simp only [decide_eq_true_eq] at hqp ⊢
  exact hq p.1 hqp

open LectureCache VideoViews in
theorem hasTranscript_dset (c : JobCache) (k : String) (v : Dict)
    (h : hasTranscriptStage c = true) :
    (dset c.stages k v).any (fun p => startsWithStr p.1 "transcript") = true := by
  unfold hasTranscriptStage at h
  exact any_key_dset_mono c.stages k v (fun s => startsWithStr s "transcript") h

open LectureCache VideoViews in
theorem fileOk_save_stage (now : Nat) (cache_id stage_name : String)
    (fs fs' : FS) (data : Dict) (config : Option Dict)
    (h : fileOk now cache_id fs = true)
    (hs : save_stage now fs cache_id stage_name data config = some fs') :
    fileOk now cache_id fs' = true := by
  unfold save_stage at hs
  unfold fileOk at h ⊢
  cases hd : dget fs cache_id with
  | none =>
    rw [hd] at hs
    rw [← Option.some.inj hs, dget_dset_self]
    simp
  | some f =>
    cases f with
    | corrupt =>
      rw [hd] at h
      simp at h
    | valid c =>
      rw [hd] at h hs
      rw [← Option.some.inj hs, dget_dset_self]
      rcases Bool.or_eq_true_iff.mp h with h' | h'
      · rw [Bool.or_eq_true_iff]
        exact Or.inl (hasTranscript_dset c stage_name (mkStageRecord now data) h')
      · rw [Bool.or_eq_true_iff]
        exact Or.inr h'

open LectureCache VideoViews in
theorem fileOk_save_part (now : Nat) (cache_id : String) (part_num : Nat)
    (summary : String) (start : ℚ) (fs fs' : FS)
    (h : fileOk now cache_id fs = true)
    (hs : save_part_summary now fs cache_id part_num summary start = some fs') :
    fileOk now cache_id fs' = true := by
  unfold save_part_summary at hs
  unfold fileOk at h ⊢
  cases hd : dget fs cache_id with
  | none =>
    rw [hd] at hs
    rw [← Option.some.inj hs, dget_dset_self]
    simp
  | some f =>
    cases f with
    | corrupt =>
      rw [hd] at h
      simp at h
    | valid c =>
      rw [hd] at h hs
      rw [← Option.some.inj hs, dget_dset_self]
      exact h

open LectureCache VideoViews in
theorem fileOk_clear_stage (now : Nat) (cache_id n : String) (fs fs' : FS)
    (h : fileOk now cache_id fs = true)
    (hn : startsWithStr n "transcript" = false)
    (hs : clear_stage now fs cache_id n = some fs') :
    fileOk now cache_id fs' = true := by
  unfold clear_stage at hs
  unfold fileOk at h ⊢
  cases hd : dget fs cache_id with
  | none =>
    rw [hd] at hs
    rw [← Option.some.inj hs, hd]
  | some f =>
    cases f with
    | corrupt =>
      rw [hd] at h
      simp at h
    | valid c =>
      rw [hd] at h hs
      by_cases hpresent : (dget c.stages n).isSome = true
      · have h2 : (if (dget c.stages n).isSome = true then
            some (dset fs cache_id (CacheFile.valid
              { c with updated_at := some now, stages := dremove c.stages n }))
          else some fs) = some fs' := hs
        rw [if_pos hpresent] at h2
        rw [← Option.some.inj h2, dget_dset_self]
        rcases Bool.or_eq_true_iff.mp h with h' | h'
        · rw [Bool.or_eq_true_iff]
          refine Or.inl (any_key_dremove c.stages n
            (fun str => startsWithStr str "transcript")
            (by unfold hasTranscriptStage at h'; exact h') ?_)
          intro key hkey hkn
          have hkey2 : startsWithStr key "transcript" = true := hkey
          rw [hkn] at hkey2
          simp [hn] at hkey2
        · rw [Bool.or_eq_true_iff]
          exact Or.inr h'
      · have h2 : (if (dget c.stages n).isSome = true then
            some (dset fs cache_id (CacheFile.valid
              { c with updated_at := some now, stages := dremove c.stages n }))
          else some fs) = some fs' := hs
        rw [if_neg hpresent] at h2
        rw [← Option.some.inj h2, hd]
        exact h

open LectureCache VideoViews in
theorem save_stage_isSome_of_fileOk (now : Nat) (cache_id stage_name : String)
    (fs : FS) (data : Dict) (config : Option Dict)
    (h : fileOk now cache_id fs = true) :
    (save_stage now fs cache_id stage_name data config).isSome = true := by
  unfold save_stage
  cases hd : dget fs cache_id with
  | none => rfl
  | some f =>
    cases f with
    | corrupt => exact absurd hd (not_corrupt_of_fileOk now cache_id fs h)
    | valid c => rfl

open LectureCache in
theorem stage_present_after_save (now : Nat) (cache_id stage_name : String)
    (fs fs' : FS) (data : Dict) (config : Option Dict)
    (hs : save_stage now fs cache_id stage_name data config = some fs') :
    (stageOf fs' cache_id stage_name).isSome = true := by
  unfold save_stage at hs
  unfold stageOf
  cases hd : dget fs cache_id with
  | none =>
    rw [hd] at hs
    rw [← Option.some.inj hs, dget_dset_self]
    simp [dget]
  | some f =>
    cases f with
    | corrupt =>
      rw [hd] at hs
      exact absurd hs (by simp)
    | valid c =>
      rw [hd] at hs
      rw [← Option.some.inj hs, dget_dset_self]
      simp [dget_dset_self]

open LectureCache in
theorem stage_preserved_save_stage (now : Nat) (cache_id stage_name other : String)
    (fs fs' : FS) (data : Dict) (config : Option Dict)
    (hpres : (stageOf fs cache_id stage_name).isSome = true)
    (hs : save_stage now fs cache_id other data config = some fs') :
    (stageOf fs' cache_id stage_name).isSome = true := by
  by_cases hsame : other = stage_name
  · subst hsame
    exact stage_present_after_save now cache_id other fs fs' data config hs
  · unfold save_stage at hs
    unfold stageOf at hpres ⊢
    cases hd : dget fs cache_id with
    | none =>
      rw [hd] at hpres
      simp at hpres
    | some f =>
      cases f with
      | corrupt =>
        rw [hd] at hpres
        simp at hpres
      | valid c =>
        rw [hd] at hpres hs
        rw [← Option.some.inj hs, dget_dset_self]
        simp only
        rw [dget_dset_ne c.stages other stage_name _ (fun hh => hsame hh.symm)]
        exact hpres

open LectureCache in
theorem stage_preserved_save_part (now : Nat) (cache_id stage_name : String)
    (part_num : Nat) (summary : String) (start : ℚ) (fs fs' : FS)
    (hpres : (stageOf fs cache_id stage_name).isSome = true)
    (hs : save_part_summary now fs cache_id part_num summary start = some fs') :
    (stageOf fs' cache_id stage_name).isSome = true := by
  unfold save_part_summary at hs
  unfold stageOf at hpres ⊢
  cases hd : dget fs cache_id with
  | none =>
    rw [hd] at hpres
    simp at hpres
  | some f =>
    cases f with
    | corrupt =>
      rw [hd] at hpres
      simp at hpres
    | valid c =>
      rw [hd] at hpres hs
      rw [← Option.some.inj hs, dget_dset_self]
      exact hpres

open LectureCache in
theorem stage_preserved_clear_stage (now : Nat) (cache_id stage_name n : String)
    (fs fs' : FS)
    (hne : n ≠ stage_name)
    (hpres : (stageOf fs cache_id stage_name).isSome = true)
    (hs : clear_stage now fs cache_id n = some fs') :
    (stageOf fs' cache_id stage_name).isSome = true := by
  unfold clear_stage at hs
  unfold stageOf at hpres ⊢
  cases hd : dget fs cache_id with
  | none =>
    rw [hd] at hpres
    simp at hpres
  | some f =>
    cases f with
    | corrupt =>
      rw [hd] at hpres
      simp at hpres
    | valid c =>
      rw [hd] at hpres hs
      by_cases hpr : (dget c.stages n).isSome = true
      · have h2 : (if (dget c.stages n).isSome = true then
            some (dset fs cache_id (CacheFile.valid
              { c with updated_at := some now, stages := dremove c.stages n }))
          else some fs) = some fs' := hs
        rw [if_pos hpr] at h2
        rw [← Option.some.inj h2, dget_dset_self]
        simp only
        rw [dget_dremove_ne c.stages n stage_name (fun hh => hne hh.symm)]
        exact hpres
      · have h2 : (if (dget c.stages n).isSome = true then
            some (dset fs cache_id (CacheFile.valid
              { c with updated_at := some now, stages := dremove c.stages n }))
          else some fs) = some fs' := hs
        rw [if_neg hpr] at h2
        rw [← Option.some.inj h2, hd]
        exact hpres

open LectureCache VideoViews in
theorem applyStep_fileOk (now : Nat) (cache_id : String) (st : Step) (fs fs' : FS)
    (hok : fileOk now cache_id fs = true)
    (hstep : ∀ n, st = Step.clearStage n → startsWithStr n "transcript" = false)
    (happ : applyStep now cache_id fs st = some fs') :
    fileOk now cache_id fs' = true := by
  cases st with
  | saveStage name data config =>
    exact fileOk_save_stage now cache_id name fs fs' data config hok happ
  | savePart p s q =>
    exact fileOk_save_part now cache_id p s q fs fs' hok happ
  | clearStage n =>
    exact fileOk_clear_stage now cache_id n fs fs' hok (hstep n rfl) happ
  | getStage n =>
    have hfs : fs' = fs := by
      have h1 : fs' = (get_stage now fs cache_id n).2 := (Option.some.inj happ).symm
      rw [h1, get_stage_snd_eq, get_pipeline_unchanged_of_fileOk now cache_id fs hok]
    rw [hfs]
    exact hok
  | getParts =>
    have hfs : fs' = fs := by
      have h1 : fs' = (get_cached_parts now fs cache_id).2 := (Option.some.inj happ).symm
      rw [h1, get_parts_snd_eq, get_pipeline_unchanged_of_fileOk now cache_id fs hok]
    rw [hfs]
    exact hok
  | remote ok =>
    cases ok with
    | true =>
      have hfs : fs' = fs := (Option.some.inj happ).symm
      rw [hfs]
      exact hok
    | false => exact absurd happ (by simp [applyStep])

open LectureCache VideoViews in
theorem applyStep_preserves (now : Nat) (cache_id stage_name : String)
    (st : Step) (fs fs' : FS)
    (hok : fileOk now cache_id fs = true)
    (hpres : (stageOf fs cache_id stage_name).isSome = true)
    (hstep : ∀ n, st = Step.clearStage n →
      n ≠ stage_name ∧ startsWithStr n "transcript" = false)
    (happ : applyStep now cache_id fs st = some fs') :
    fileOk now cache_id fs' = true ∧
      (stageOf fs' cache_id stage_name).isSome = true := by
  refine ⟨applyStep_fileOk now cache_id st fs fs' hok
    (fun n hn => (hstep n hn).2) happ, ?_⟩
  cases st with
  | saveStage name data config =>
    exact stage_preserved_save_stage now cache_id stage_name name fs fs' data config
      hpres happ
  | savePart p s q =>
    exact stage_preserved_save_part now cache_id stage_name p s q fs fs' hpres happ
  | clearStage n =>
    exact stage_preserved_clear_stage now cache_id stage_name n fs fs'
      (hstep n rfl).1 hpres happ
  | getStage n =>
    have hfs : fs' = fs := by
      have h1 : fs' = (get_stage now fs cache_id n).2 := (Option.some.inj happ).symm
      rw [h1, get_stage_snd_eq, get_pipeline_unchanged_of_fileOk now cache_id fs hok]
    rw [hfs]
    exact hpres
  | getParts =>
    have hfs : fs' = fs := by
      have h1 : fs' = (get_cached_parts now fs cache_id).2 := (Option.some.inj happ).symm
      rw [h1, get_parts_snd_eq, get_pipeline_unchanged_of_fileOk now cache_id fs hok]
    rw [hfs]
    exact hpres
  | remote ok =>
    cases ok with
    | true =>
      have hfs : fs' = fs := (Option.some.inj happ).symm
      rw [hfs]
      exact hpres
    | false => exact absurd happ (by simp [applyStep])

open LectureCache VideoViews in
theorem runBody_fileOk (now : Nat) (cache_id : String) :
    ∀ (steps : List Step) (fs : FS),
      fileOk now cache_id fs = true →
      (∀ st ∈ steps, ∀ n, st = Step.clearStage n →
        startsWithStr n "transcript" = false) →
      fileOk now cache_id (runBody now cache_id fs steps).1 = true := by
  intro steps
  induction steps with
  | nil =>
    intro fs hok _
    exact hok
  | cons st rest ih =>
    intro fs hok hsteps
    unfold runBody
    cases happ : applyStep now cache_id fs st with
    | none => exact hok
    | some fs' =>
      have hok' := applyStep_fileOk now cache_id st fs fs' hok
        (hsteps st (by simp)) happ
      exact ih fs' hok' (fun s hmem => hsteps s (by simp [hmem]))

open LectureCache VideoViews in
theorem runBody_preserves (now : Nat) (cache_id stage_name : String) :
    ∀ (steps : List Step) (fs : FS),
      fileOk now cache_id fs = true →
      (stageOf fs cache_id stage_name).isSome = true →
      (∀ st ∈ steps, ∀ n, st = Step.clearStage n →
        n ≠ stage_name ∧ startsWithStr n "transcript" = false) →
      (stageOf (runBody now cache_id fs steps).1 cache_id stage_name).isSome = true := by
  intro steps
  induction steps with
  | nil =>
    intro fs _ hpres _
    exact hpres
  | cons st rest ih =>
    intro fs hok hpres hsteps
    unfold runBody
    cases happ : applyStep now cache_id fs st with
    | none => exact hpres
    | some fs' =>
      obtain ⟨hok', hpres'⟩ := applyStep_preserves now cache_id stage_name st fs fs'
        hok hpres (hsteps st (by simp)) happ
      exact ih fs' hok' hpres' (fun s hmem => hsteps s (by simp [hmem]))

open LectureCache VideoViews in
theorem runBody_append (now : Nat) (cache_id : String) :
    ∀ (a b : List Step) (fs : FS),
      runBody now cache_id fs (a ++ b) =
        if (runBody now cache_id fs a).2 then
          runBody now cache_id (runBody now cache_id fs a).1 b
        else runBody now cache_id fs a := by
  intro a
  induction a with
  | nil =>
    intro b fs
    simp [runBody]
  | cons st rest ih =>
    intro b fs
    have hl : runBody now cache_id fs ((st :: rest) ++ b) =
        (match applyStep now cache_id fs st with
         | some fs2 => runBody now cache_id fs2 (rest ++ b)
         | none => (fs, false)) := rfl
    rw [hl]
    cases happ : applyStep now cache_id fs st with
    | none =>
      have hcons : runBody now cache_id fs (st :: rest) = (fs, false) := by
        conv_lhs => unfold runBody; rw [happ]
      simp [hcons]
    | some fs' =>
      have hcons : runBody now cache_id fs (st :: rest) =
          runBody now cache_id fs' rest := by
        conv_lhs => unfold runBody; rw [happ]
      simp [hcons, ih b fs']

open LectureCache VideoViews in
/-- C9: the orchestrator deletes the pipeline cache only on confirmed
success.  If any step of the `process` body raises, the `except` handler
performs no cache operation: the final directory is exactly the directory at
the moment of the exception, so every stage and segment record saved before
the failure is intact for resume; a body that completes ends with
`clear_pipeline_cache`, removing the fingerprint's file.  Moreover, starting
from a protected directory (`fileOk`), a stage saved by the body before the
failure is still present at the end, provided later body steps do not
explicitly clear that very stage or a transcription stage (the source's only
`clear_stage` call targets `"slides"`). -/
theorem process_deletes_cache_only_on_success
    (now : Nat) (cache_id : String) (fs : FS) (steps : List Step) :
    ((runBody now cache_id fs steps).2 = false →
      videoProcessRun now cache_id fs steps = (runBody now cache_id fs steps).1) ∧
    ((runBody now cache_id fs steps).2 = true →
      dget (videoProcessRun now cache_id fs steps) cache_id = none) ∧
    (∀ pre name data config post,
      fileOk now cache_id fs = true →
      steps = pre ++ Step.saveStage name data config :: post →
      (runBody now cache_id fs pre).2 = true →
      (∀ st ∈ pre, ∀ n, st = Step.clearStage n →
        startsWithStr n "transcript" = false) →
      (∀ st ∈ post, ∀ n, st = Step.clearStage n →
        n ≠ name ∧ startsWithStr n "transcript" = false) →
      (stageOf (runBody now cache_id fs steps).1 cache_id name).isSome = true) := by
  refine ⟨?_, ?_, ?_⟩
  · intro h
    unfold videoProcessRun
    simp [h]
  · intro h
    unfold videoProcessRun
    simp [h, clear_pipeline_cache, dget_dremove_self]
  · intro pre name data config post hok hsplit hpre hprecond hpostcond
    subst hsplit
    rw [runBody_append now cache_id pre (Step.saveStage name data config :: post) fs,
      if_pos hpre]
    have hok1 : fileOk now cache_id (runBody now cache_id fs pre).1 = true :=
      runBody_fileOk now cache_id pre fs hok hprecond
    cases hsv : save_stage now (runBody now cache_id fs pre).1 cache_id name data config with
    | none =>
      have hsome := save_stage_isSome_of_fileOk now cache_id name
        (runBody now cache_id fs pre).1 data config hok1
      rw [hsv] at hsome
      simp at hsome
    | some fs2 =>
      have happ : applyStep now cache_id (runBody now cache_id fs pre).1
          (Step.saveStage name data config) = some fs2 := hsv
      have hstep : runBody now cache_id (runBody now cache_id fs pre).1
          (Step.saveStage name data config :: post) =
          runBody now cache_id fs2 post := by
        conv_lhs => unfold runBody; rw [happ]
      rw [hstep]
      have hok2 := fileOk_save_stage now cache_id name
        (runBody now cache_id fs pre).1 fs2 data config hok1 hsv
      have hpres2 := stage_present_after_save now cache_id name
        (runBody now cache_id fs pre).1 fs2 data config hsv
      exact runBody_preserves now cache_id name post fs2 hok2 hpres2 hpostcond

open LectureCache VideoViews Examples in
/-- Witness for C9: a concrete run that saves the `video` stage and then
fails at a remote call; the saved stage survives and the error path deletes
nothing, while the same body without the failure deletes the file. -/
theorem process_deletes_cache_only_on_success_witness :
    (runBody 10 "c" [] [Step.saveStage "video" videoData none, Step.remote false]).2 = false ∧
    fileOk 10 "c" ([] : FS) = true ∧
    (stageOf (runBody 10 "c" []
        [Step.saveStage "video" videoData none, Step.remote false]).1 "c" "video").isSome = true ∧
    videoProcessRun 10 "c" [] [Step.saveStage "video" videoData none, Step.remote false] =
      (runBody 10 "c" [] [Step.saveStage "video" videoData none, Step.remote false]).1 ∧
    (runBody 10 "c" [] [Step.saveStage "video" videoData none, Step.remote true]).2 = true ∧
    dget (videoProcessRun 10 "c" []
      [Step.saveStage "video" videoData none, Step.remote true]) "c" = none := by
  refine ⟨by decide, by decide, ?_, ?_, by decide, ?_⟩
  · exact (process_deletes_cache_only_on_success 10 "c" []
      ([] ++ Step.saveStage "video" videoData none :: [Step.remote false])).2.2
      [] "video" videoData none [Step.remote false]
      (by decide) rfl (by decide)
      (by intro st hst n heq; simp at hst)
      (by
        intro st hst n heq
        simp at hst
        rw [hst] at heq
        exact absurd heq (by simp))
  · exact (process_deletes_cache_only_on_success 10 "c" []
      [Step.saveStage "video" videoData none, Step.remote false]).1 (by decide)
  · exact (process_deletes_cache_only_on_success 10 "c" []
      [Step.saveStage "video" videoData none, Step.remote true]).2.1 (by decide)
